import Mathlib

/-!
# Verification of the Energy Power Dashboard core (`app.py`)

A shallow embedding of the in-memory tabular data model of the dashboard:
Python floats are modelled as `PFloat` (NaN, signed infinity, or an exact
rational — the idealisation of binary64 arithmetic by exact rationals is
used throughout), pandas cells as `Cell`, the reading table as `List Row`,
and each source function as a Lean function of the same name.
-/

/-- A Python float value: NaN, a signed infinity, or a finite value
(idealised as an exact rational). -/
inductive PFloat : Type where
  | nan : PFloat
  | inf (neg : Bool) : PFloat
  | num (q : ℚ) : PFloat
deriving DecidableEq, Repr

namespace PFloat

/-- IEEE-style strict order used by Python `<` / `>`: every comparison with
NaN is false; `-inf` below all finite values, `+inf` above. -/
def lt : PFloat → PFloat → Bool
  | nan, _ => false
  | _, nan => false
  | inf b₁, inf b₂ => b₁ && !b₂
  | inf b, num _ => b
  | num _, inf b => !b
  | num a, num b => decide (a < b)

/-- IEEE-style non-strict order (false whenever NaN is involved). -/
def le : PFloat → PFloat → Bool
  | nan, _ => false
  | _, nan => false
  | inf b₁, inf b₂ => b₁ || !b₂
  | inf b, num _ => b
  | num _, inf b => !b
  | num a, num b => decide (a ≤ b)

/-- Python `abs` on floats. -/
def fabs : PFloat → PFloat
  | nan => nan
  | inf _ => inf false
  | num q => num |q|

/-- Float addition (NaN absorbs; `inf + -inf = NaN`). -/
def add : PFloat → PFloat → PFloat
  | nan, _ => nan
  | _, nan => nan
  | inf b₁, inf b₂ => if b₁ = b₂ then inf b₁ else nan
  | inf b, num _ => inf b
  | num _, inf b => inf b
  | num a, num b => num (a + b)

/-- Float negation. -/
def neg : PFloat → PFloat
  | nan => nan
  | inf b => inf (!b)
  | num q => num (-q)

/-- Float subtraction. -/
def sub (x y : PFloat) : PFloat := add x (neg y)

/-- Float multiplication (`0 * inf = NaN`). -/
def mul : PFloat → PFloat → PFloat
  | nan, _ => nan
  | _, nan => nan
  | inf b₁, inf b₂ => inf (b₁ ≠ b₂)
  | inf b, num q => if q = 0 then nan else inf (b ≠ decide (q < 0))
  | num q, inf b => if q = 0 then nan else inf (b ≠ decide (q < 0))
  | num a, num b => num (a * b)

/-- Scale a float by an exact rational constant. -/
def scale (c : ℚ) : PFloat → PFloat
  | nan => nan
  | inf b => if c = 0 then nan else inf (b ≠ decide (c < 0))
  | num q => num (c * q)

/-- Divide a float by a positive natural number (used for means). -/
def divNat (x : PFloat) (n : ℕ) : PFloat :=
  match x with
  | nan => nan
  | inf b => inf b
  | num q => num (q / n)

/-- Sum of a list of floats. -/
def lsum (xs : List PFloat) : PFloat := xs.foldl add (num 0)

/-- Binary float minimum, as computed by pandas on NaN-free data. -/
def fmin (x y : PFloat) : PFloat := if lt y x then y else x

/-- Binary float maximum, as computed by pandas on NaN-free data. -/
def fmax (x y : PFloat) : PFloat := if lt x y then y else x

/-- Total ordering used for sorting NaN-free float data
(NaN sorted last, as pandas does). -/
def ble : PFloat → PFloat → Bool
  | _, nan => true
  | nan, _ => false
  | inf true, _ => true
  | _, inf true => false
  | inf false, inf false => true
  | num _, inf false => true
  | inf false, num _ => false
  | num a, num b => decide (a ≤ b)

end PFloat

/-- One pandas cell as it occurs in this app's two columns: a Python string,
a float (possibly NaN or infinite), a parsed datetime (represented by a
rational sort key), the missing-datetime marker NaT, or Python `None`. -/
inductive Cell : Type where
  | str (s : String) : Cell
  | real (x : PFloat) : Cell
  | dt (k : ℚ) : Cell
  | natT : Cell
  | pyNone : Cell
deriving DecidableEq, Repr

/-- pandas missing-value test (`isna`): NaN, NaT and None are missing. -/
def Cell.isna : Cell → Bool
  | .real .nan => true
  | .natT => true
  | .pyNone => true
  | _ => false

/-- One row of the reading table: the `Date Time` column and the `Power`
column. -/
structure Row : Type where
  dateTime : Cell
  power : Cell
deriving DecidableEq, Repr

/-! ## The Python `float` constructor

`handle_add_power` calls Python's builtin `float(text)` on the stripped
input. We model its grammar exactly on stripped text: an optional sign,
then `inf`/`infinity`/`nan` (case-insensitive) or a decimal mantissa with
at least one digit (underscores allowed strictly between digits) and an
optional exponent. Finite values are exact rationals (binary64 rounding is
idealised away). -/

/-- Digit test. -/
def isDigit (c : Char) : Bool := decide ('0' ≤ c) && decide (c ≤ '9')

/-- Numeric value of a digit character. -/
def digitVal (c : Char) : ℕ := c.toNat - '0'.toNat

/-- Parse a digit run that may contain underscores strictly between digits
(Python 3.6+ literal grammar). Returns the digits' value, the number of
digits, and the remaining characters; fails if the run is empty or an
underscore is misplaced. The `acc`/`cnt` accumulators carry digits already
consumed. -/
def parseDigitsCore : List Char → ℕ → ℕ → Option (ℕ × ℕ × List Char)
  | [], acc, cnt => if cnt = 0 then none else some (acc, cnt, [])
  | c :: rest, acc, cnt =>
    if isDigit c then
      parseDigitsCore rest (10 * acc + digitVal c) (cnt + 1)
    else if c = '_' then
      -- an underscore must be followed by a digit and preceded by one
      match rest with
      | d :: rest' =>
        if cnt ≠ 0 && isDigit d then
          parseDigitsCore rest' (10 * acc + digitVal d) (cnt + 1)
        else none
      | [] => none
    else
      if cnt = 0 then none else some (acc, cnt, c :: rest)

/-- Parse an optional `+`/`-` sign; returns whether the value is negated
and the remaining characters. -/
def parseSign : List Char → Bool × List Char
  | '+' :: rest => (false, rest)
  | '-' :: rest => (true, rest)
  | cs => (false, cs)

/-- ASCII lower-casing of one character. -/
def lowerChar (c : Char) : Char :=
  if 'A' ≤ c && c ≤ 'Z' then Char.ofNat (c.toNat + 32) else c

/-- Case-insensitive match of a keyword against the whole remaining input. -/
def matchesWord (cs : List Char) (w : String) : Bool :=
  cs.map lowerChar == w.toList

/-- Python whitespace test used by `str.strip`. -/
def isSpaceChar (c : Char) : Bool :=
  c == ' ' || c == '\t' || c == '\n' || c == '\r' ||
    c == Char.ofNat 11 || c == Char.ofNat 12

/-- Python's `str.strip()`: remove leading and trailing whitespace. -/
def pyStrip (s : String) : String :=
  String.mk (((s.toList.dropWhile isSpaceChar).reverse.dropWhile isSpaceChar).reverse)

/-- Parse mantissa-and-exponent (everything after the sign) of a Python
float literal. -/
def parseMantissa (cs : List Char) : Option ℚ :=
  -- integer part (may be absent if a fractional part follows)
  let intPart := parseDigitsCore cs 0 0
  let (ipVal, afterInt, hasInt) :=
    match intPart with
    | some (v, _, rest) => (v, rest, true)
    | none => (0, cs, false)
  match afterInt with
  | '.' :: afterDot =>
    (match parseDigitsCore afterDot 0 0 with
     | some (fv, fn, afterFrac) =>
       let mant : ℚ := (ipVal : ℚ) + (fv : ℚ) / ((10 : ℚ) ^ fn)
       parseExponent afterFrac mant
     | none =>
       -- "5." is legal, "." alone is not
       if hasInt then parseExponent afterDot (ipVal : ℚ) else none)
  | rest =>
    if hasInt then parseExponent rest (ipVal : ℚ) else none
where
  /-- Parse an optional exponent suffix and require end of input. -/
  parseExponent (cs : List Char) (mant : ℚ) : Option ℚ :=
    match cs with
    | [] => some mant
    | e :: rest =>
      if e = 'e' || e = 'E' then
        let (eneg, rest') := parseSign rest
        match parseDigitsCore rest' 0 0 with
        | some (ev, _, []) =>
          some (if eneg then mant / ((10 : ℚ) ^ ev) else mant * ((10 : ℚ) ^ ev))
        | _ => none
      else none

/-- Python's `float(text)` on already-stripped text: `some` on success,
`none` when `ValueError` would be raised. -/
def pythonFloat (text : String) : Option PFloat :=
  let (sgn, body) := parseSign text.toList
  if matchesWord body "inf" || matchesWord body "infinity" then
    some (.inf sgn)
  else if matchesWord body "nan" then
    some .nan
  else
    (parseMantissa body).map fun q => .num (if sgn then -q else q)

/-! ## `pd.to_numeric(..., errors="coerce")` -/

/-- Numeric coercion of one cell, as `pd.to_numeric(col, errors="coerce")`
performs elementwise: floats pass through, strings are parsed as float
literals (whitespace stripped) with failures becoming NaN, missing values
become NaN, datetimes expose their sort key. -/
def toNumericCell : Cell → PFloat
  | .real x => x
  | .str s => (pythonFloat (pyStrip s)).getD .nan
  | .dt k => .num k
  | .natT => .nan
  | .pyNone => .nan

/-! ## `handle_add_power` (app.py lines 143–175) -/

/-- `POWER_MIN` from app.py. -/
def POWER_MIN : ℚ := -150

/-- `POWER_MAX` from app.py. -/
def POWER_MAX : ℚ := 150

/-- The `last_input_status` messages that `handle_add_power` and the clear
button can set, identified structurally:
`errEmpty` = `("error", "Please input a value.")`,
`errNotNumber` = `("error", "Please input a valid number.")`,
`errOutOfRange` = `("error", "Power must be between -150 and 150.")`,
`okAdded now v` = `("success", "Added: <now> | Power = <v>")`,
`okCleared` = `("success", "All data cleared from table.")`. -/
inductive InputStatus : Type where
  | errEmpty : InputStatus
  | errNotNumber : InputStatus
  | errOutOfRange : InputStatus
  | okAdded (now : String) (v : PFloat) : InputStatus
  | okCleared : InputStatus
deriving DecidableEq, Repr

/-- The slice of `st.session_state` that `handle_add_power` touches. -/
structure AppState : Type where
  df : List Row
  power_input : String
  last_input_status : Option InputStatus
deriving DecidableEq, Repr

/-- `handle_add_power` (app.py 143–175): strip the text box, reject blank
input, unparsable input (`float` raises `ValueError`) and values with
`power_val < POWER_MIN or power_val > POWER_MAX`; otherwise concat a new
row `{Date Time: now, Power: power_val}` to the end of the table, report
success and clear the box. `now` is the current instant formatted as
`%Y-%m-%d %H:%M:%S`, passed in explicitly. -/
def handle_add_power (now : String) (s : AppState) : AppState :=
  let text := pyStrip s.power_input
  if text.isEmpty then
    { s with last_input_status := some .errEmpty }
  else
    match pythonFloat text with
    | none => { s with last_input_status := some .errNotNumber }
    | some power_val =>
      if PFloat.lt power_val (.num POWER_MIN) || PFloat.lt (.num POWER_MAX) power_val then
        { s with last_input_status := some .errOutOfRange }
      else
        { df := s.df ++ [⟨.str now, .real power_val⟩],
          power_input := "",
          last_input_status := some (.okAdded now power_val) }

/-! ## `add_to_history` (app.py lines 81–91) -/

/-- One history item, as built by `add_to_history`: the dict
`{"name": name, "df": df.copy(), "timestamp": now}`. The `.copy()` is the
identity in this pure embedding (lists are values, never aliased). -/
structure Snapshot : Type where
  name : String
  df : List Row
  timestamp : String
deriving DecidableEq, Repr

/-- `add_to_history` (app.py 81–91): no-op on an empty table, otherwise
insert a snapshot at the front and truncate the history to its first 5
entries. -/
def add_to_history (now : String) (history : List Snapshot) (df : List Row)
    (name : String) : List Snapshot :=
  if df.isEmpty then history
  else ((⟨name, df, now⟩ : Snapshot) :: history).take 5

/-! ## `compute_power_stats` (app.py lines 94–111) -/

/-- `pd.to_numeric(col, errors="coerce").dropna()`: coerce every cell and
drop the NaN results. -/
def seriesDropna (cells : List Cell) : List PFloat :=
  (cells.map toNumericCell).filter (fun x => decide (x ≠ PFloat.nan))

/-- Insert into a `PFloat.ble`-sorted list. -/
def insertFloat (x : PFloat) : List PFloat → List PFloat
  | [] => [x]
  | y :: ys => if PFloat.ble x y then x :: y :: ys else y :: insertFloat x ys

/-- Sort a float list ascending (the order in which pandas ranks the data
for quantiles). -/
def sortFloats : List PFloat → List PFloat
  | [] => []
  | x :: xs => insertFloat x (sortFloats xs)

/-- `Series.quantile(p)` with the default linear interpolation: with the
data sorted ascending and `h = p * (n - 1)`, interpolate between the order
statistics at `⌊h⌋` and `⌊h⌋ + 1`. `Series.median()` is the `p = 1/2`
case. -/
def quantileLinear (s : List PFloat) (p : ℚ) : PFloat :=
  let sorted := sortFloats s
  let n := sorted.length
  let h : ℚ := p * ((n : ℚ) - 1)
  let i : ℕ := ⌊h⌋₊
  let frac : ℚ := h - (i : ℚ)
  let lo := sorted.getD i .nan
  let hi := sorted.getD (i + 1) lo
  lo.add (PFloat.scale frac (hi.sub lo))

/-- `Series.min()` on NaN-free data. -/
def listMinF : List PFloat → PFloat
  | [] => .nan
  | x :: xs => xs.foldl PFloat.fmin x

/-- `Series.max()` on NaN-free data. -/
def listMaxF : List PFloat → PFloat
  | [] => .nan
  | x :: xs => xs.foldl PFloat.fmax x

/-- The statistics dict returned by `compute_power_stats`. The source's
`"std"` entry is `sqrt` of a rational and has no exact representation, so
the embedding tracks its square `var` (the Bessel-corrected sample
variance `Series.var(ddof=1)`); the source's `std` is `√var`, and its
`count > 1` guard acts identically on `var`. -/
structure PowerStats : Type where
  count : ℕ
  mean : PFloat
  median : PFloat
  var : PFloat
  min : PFloat
  max : PFloat
  sum : PFloat
  q25 : PFloat
  q75 : PFloat
deriving DecidableEq, Repr

/-- `compute_power_stats` (app.py 94–111): coerce the `Power` column,
drop NaNs, return `None` if nothing remains, else the statistics dict.
(The `"Power" not in df.columns` guard is vacuous here: every embedded row
has both columns.) -/
def compute_power_stats (df : List Row) : Option PowerStats :=
  let s := seriesDropna (df.map (·.power))
  if s.isEmpty then none
  else
    let n := s.length
    let mean := PFloat.divNat (PFloat.lsum s) n
    some {
      count := n
      mean := mean
      median := quantileLinear s (1/2)
      var := if 1 < n then
          PFloat.divNat (PFloat.lsum (s.map fun x => (x.sub mean).mul (x.sub mean))) (n - 1)
        else .num 0
      min := listMinF s
      max := listMaxF s
      sum := PFloat.lsum s
      q25 := quantileLinear s (1/4)
      q75 := quantileLinear s (3/4) }

/-! ## `prepare_plot_df` (app.py lines 114–124) -/

/-- Modelled from the app's own timestamp format: parse
`%Y-%m-%d %H:%M:%S` into a sort key that is strictly monotone in
(year, month, day, hour, minute, second). pandas `to_datetime` accepts
further formats; the model treats every other string as unparsable
(raising), which matches pandas on this app's own timestamps and on
arbitrary non-date text. -/
def parseTimestamp (s : String) : Option ℕ :=
  match s.toList with
  | [y1, y2, y3, y4, '-', m1, m2, '-', d1, d2, ' ', h1, h2, ':', n1, n2, ':', s1, s2] =>
    if [y1, y2, y3, y4, m1, m2, d1, d2, h1, h2, n1, n2, s1, s2].all isDigit then
      let y := 1000 * digitVal y1 + 100 * digitVal y2 + 10 * digitVal y3 + digitVal y4
      let mo := 10 * digitVal m1 + digitVal m2
      let d := 10 * digitVal d1 + digitVal d2
      let h := 10 * digitVal h1 + digitVal h2
      let mi := 10 * digitVal n1 + digitVal n2
      let se := 10 * digitVal s1 + digitVal s2
      if 1 ≤ mo && mo ≤ 12 && 1 ≤ d && d ≤ 31 && h ≤ 23 && mi ≤ 59 && se ≤ 59 then
        some (((((y * 13 + mo) * 32 + d) * 24 + h) * 60 + mi) * 60 + se)
      else none
    else none
  | _ => none

/-- `pd.to_datetime` on one cell: `none` means the conversion raises;
`some` is the converted cell (strings parse to datetimes or raise, missing
values become NaT, numbers convert as epoch offsets). -/
def toDatetimeCell : Cell → Option Cell
  | .str s => (parseTimestamp s).map .dt
  | .real .nan => some .natT
  | .real (.inf _) => none
  | .real (.num q) => some (.dt q)
  | .dt k => some (.dt k)
  | .natT => some .natT
  | .pyNone => some .natT

/-- `pd.to_datetime` on a whole column: all-or-nothing — every cell must
convert, otherwise the call raises and (under the source's
`try/except: pass`) the column is left untouched. -/
def toDatetimeList : List Cell → Option (List Cell)
  | [] => some []
  | c :: cs =>
    match toDatetimeCell c, toDatetimeList cs with
    | some c', some cs' => some (c' :: cs')
    | _, _ => none

/-- `prepare_plot_df` (app.py 114–124): try to convert the `Date Time`
column (ignoring failure), coerce `Power` to numeric, and drop the rows
whose `Power` is NaN (`dropna(subset=["Power"])` — only `Power`). -/
def prepare_plot_df (df : List Row) : List Row :=
  let df₁ :=
    match toDatetimeList (df.map (·.dateTime)) with
    | some converted => (df.zip converted).map fun (rc : Row × Cell) => { rc.1 with dateTime := rc.2 }
    | none => df
  let df₂ := df₁.map fun r => { r with power := .real (toNumericCell r.power) }
  df₂.filter fun r => !r.power.isna

/-! ## `power_status_label` (app.py lines 127–140) -/

/-- `power_status_label` (app.py 127–140): severity of the latest value by
absolute magnitude. -/
def power_status_label (value : Option PFloat) : String × String :=
  match value with
  | none => ("⚪", "No data")
  | some value =>
    let v := value.fabs
    if PFloat.lt (.num 120) v then ("⚠️", "High power alert")
    else if PFloat.lt (.num 60) v then ("🟡", "Medium usage")
    else ("🟢", "Normal")

/-! ## The Visualization tab pipeline (app.py lines 389–444) -/

/-- Insert into a list sorted by a boolean comparison. -/
def insertBy (le : α → α → Bool) (x : α) : List α → List α
  | [] => [x]
  | y :: ys => if le x y then x :: y :: ys else y :: insertBy le x ys

/-- Sort by a boolean comparison (ascending), as `DataFrame.sort_values`
orders rows by a column. -/
def sortBy (le : α → α → Bool) : List α → List α
  | [] => []
  | x :: xs => insertBy le x (sortBy le xs)

/-- Ordering `sort_values` uses on this app's `Date Time` column:
datetimes by their key, raw strings lexicographically (the column is
homogeneous in every reachable state; across kinds an arbitrary fixed
rank order is used). -/
def cellBle : Cell → Cell → Bool
  | .dt k, .dt l => decide (k ≤ l)
  | .str s, .str t => decide (s ≤ t)
  | .real x, .real y => PFloat.ble x y
  | a, b => decide (rank a ≤ rank b)
where
  /-- Arbitrary rank separating cell kinds. -/
  rank : Cell → ℕ
    | .str _ => 0
    | .dt _ => 1
    | .real _ => 2
    | .natT => 3
    | .pyNone => 4

/-- The numeric value of a prepared row's `Power` cell (after
`prepare_plot_df` the cell is always a non-NaN float and this is just its
value). -/
def powerVal (r : Row) : PFloat := toNumericCell r.power

/-- `Series.rolling(window=w, center=True, min_periods=1).mean()`:
at position `i` the window covers indices `i - (w-1)/2` through
`i + w/2` (Nat division), clipped to the sequence; with `min_periods=1`
the mean is taken over however many samples fall inside the clipped
window. -/
def rollingMeanCentered (w : ℕ) (xs : List PFloat) : List PFloat :=
  (List.range xs.length).map fun i =>
    let lo := i - (w - 1) / 2
    let hi := min (i + w / 2) (xs.length - 1)
    let window := (xs.drop lo).take (hi + 1 - lo)
    PFloat.divNat (PFloat.lsum window) window.length

/-- The chart controls of the Visualization tab. -/
structure ChartControls : Type where
  sort_time : Bool
  smoothing_enabled : Bool
  smoothing_window : ℕ
  range_lo : ℚ
  range_hi : ℚ
deriving DecidableEq, Repr

/-- One plotted point: the `Date Time` cell, the raw `Power` value, and
the `Power_plot` value actually drawn. -/
structure PlotPoint : Type where
  dateTime : Cell
  power : PFloat
  power_plot : PFloat
deriving DecidableEq, Repr

/-- The Visualization tab's data pipeline (app.py 389–444):
`prepare_plot_df`, a second (idempotent) numeric coercion, a dropna over
both columns, optional sort by `Date Time`, the display-range filter
(`Series.between`, bounds inclusive), and the `Power_plot` column — the
centered rolling mean when smoothing is on, the raw values otherwise. -/
def tab_visual_pipeline (df : List Row) (c : ChartControls) : List PlotPoint :=
  let p₀ := prepare_plot_df df
  let p₁ := p₀.map fun r => { r with power := .real (toNumericCell r.power) }
  let p₂ := p₁.filter fun r => !r.dateTime.isna && !r.power.isna
  let p₃ := if c.sort_time then sortBy (fun a b => cellBle a.dateTime b.dateTime) p₂ else p₂
  let p₄ := p₃.filter fun r =>
    PFloat.le (.num c.range_lo) (powerVal r) && PFloat.le (powerVal r) (.num c.range_hi)
  let xs := p₄.map powerVal
  let plotVals := if c.smoothing_enabled then rollingMeanCentered c.smoothing_window xs else xs
  (p₄.zip plotVals).map fun (rp : Row × PFloat) =>
    { dateTime := rp.1.dateTime, power := powerVal rp.1, power_plot := rp.2 }

/-! ## The editable-grid commit (app.py lines 347–367) -/

/-- The commit path of the `data_editor` (app.py 354–367): the edited
table is accepted as-is except that its `Power` column is coerced with
`pd.to_numeric(..., errors="coerce")`; the result is written back to
`st.session_state.df`. No row is dropped or rejected. -/
def commit_data_editor (edited : List Row) : List Row :=
  edited.map fun r => { r with power := .real (toNumericCell r.power) }

/-- The advisory warning of the commit path: `invalid_mask` is true for a
row whose coerced `Power` is present (not NaN) yet outside
`[POWER_MIN, POWER_MAX]`; the warning fires when any row is flagged, and
nothing else depends on it. -/
def data_editor_warning (edited : List Row) : Bool :=
  edited.any fun r =>
    let x := toNumericCell r.power
    (!(PFloat.le (.num POWER_MIN) x && PFloat.le x (.num POWER_MAX))
      && !(Cell.real x).isna)

/-! ## Whole-session state and the user actions that mutate the table -/

/-- The session state relevant to the data model: the live table, the
snapshot history, and the input-box state. -/
structure SessionState : Type where
  df : List Row
  history : List Snapshot
  power_input : String
  last_input_status : Option InputStatus
deriving DecidableEq, Repr

/-- The table-mutating interactions of the app: typing a value and
pressing Enter, committing a grid edit, clearing the table, and restoring
a snapshot (`st.session_state.df = item["df"].copy()`, app.py 684). -/
inductive UserAction : Type where
  | addPower (now text : String) : UserAction
  | commitEdit (edited : List Row) : UserAction
  | clearData : UserAction
  | restoreSnapshot (i : ℕ) : UserAction
deriving DecidableEq, Repr

/-- Apply one user action to the session state. Restore with a stale
index is a no-op (the UI only offers in-bounds restore buttons). -/
def applyAction : UserAction → SessionState → SessionState
  | .addPower now text, s =>
    let a := handle_add_power now
      { df := s.df, power_input := text, last_input_status := s.last_input_status }
    { s with df := a.df, power_input := a.power_input, last_input_status := a.last_input_status }
  | .commitEdit edited, s => { s with df := commit_data_editor edited }
  | .clearData, s => { s with df := [], last_input_status := some .okCleared }
  | .restoreSnapshot i, s =>
    match s.history[i]? with
    | some item => { s with df := item.df }
    | none => s

/-- Apply a sequence of user actions, oldest first. -/
def applyActions (acts : List UserAction) (s : SessionState) : SessionState :=
  acts.foldl (fun t a => applyAction a t) s

/-- The export path (app.py 766–767): a successful download stores a
snapshot of the current table under `"<base> (export)"`. -/
def exportAction (now base : String) (s : SessionState) : SessionState :=
  { s with history := add_to_history now s.history s.df (base ++ " (export)") }

/-! ## Spec-side definitions (used only in theorem statements) -/

/-- Spec-side: the numeric sub-series of the `Power` column that
`compute_power_stats` aggregates (coerce, then drop NaN). -/
def numericSeries (df : List Row) : List PFloat :=
  seriesDropna (df.map (·.power))

/-- Spec-side: linear interpolation between order statistics of an
already-sorted rational list, the textbook percentile definition the spec
refers to (`h = p * (n-1)`; interpolate between entries `⌊h⌋` and
`⌊h⌋ + 1`). -/
def ratQuantile (sorted : List ℚ) (p : ℚ) : ℚ :=
  let n := sorted.length
  let h : ℚ := p * ((n : ℚ) - 1)
  let i : ℕ := ⌊h⌋₊
  let lo := sorted.getD i 0
  let hi := sorted.getD (i + 1) lo
  lo + (h - (i : ℚ)) * (hi - lo)

/-- Spec-side: a row whose `Power` value fails numeric coercion. -/
def valueCoercionFails (r : Row) : Bool :=
  decide (toNumericCell r.power = PFloat.nan)

/-- Spec-side: a row whose timestamp or value fails to coerce — the rows
the C4 claim says are dropped. -/
def eitherCoercionFails (r : Row) : Bool :=
  (toDatetimeCell r.dateTime).isNone || valueCoercionFails r

/-- Spec-side: the indices inside a centered window of size `w` (odd)
around position `i`, clipped to a sequence of length `n` — the samples a
`min_periods = 1` centered moving average aggregates. -/
def windowIdx (w n i : ℕ) : List ℕ :=
  (List.range n).filter fun j => decide (i ≤ j + w / 2 ∧ j ≤ i + w / 2)

/-- Spec-side: the centered-window average of `xs` at position `i` — mean
of exactly the samples whose index lies within the centered window. -/
def windowMean (w : ℕ) (xs : List PFloat) (i : ℕ) : PFloat :=
  let idx := windowIdx w xs.length i
  PFloat.divNat (PFloat.lsum (idx.map fun j => xs.getD j .nan)) idx.length

/-! ## Helper lemmas: `PFloat` operations restricted to finite values -/

theorem PFloat.add_num (a b : ℚ) : PFloat.add (.num a) (.num b) = .num (a + b) := rfl

theorem PFloat.sub_num (a b : ℚ) : PFloat.sub (.num a) (.num b) = .num (a - b) := by
  simp [PFloat.sub, PFloat.neg, PFloat.add_num, sub_eq_add_neg]

theorem PFloat.mul_num (a b : ℚ) : PFloat.mul (.num a) (.num b) = .num (a * b) := rfl

theorem PFloat.scale_num (c a : ℚ) : PFloat.scale c (.num a) = .num (c * a) := rfl

theorem PFloat.divNat_num (a : ℚ) (n : ℕ) : PFloat.divNat (.num a) n = .num (a / n) := rfl

theorem PFloat.ble_num (a b : ℚ) : PFloat.ble (.num a) (.num b) = decide (a ≤ b) := rfl

theorem PFloat.lt_num (a b : ℚ) : PFloat.lt (.num a) (.num b) = decide (a < b) := rfl

theorem PFloat.le_num (a b : ℚ) : PFloat.le (.num a) (.num b) = decide (a ≤ b) := rfl

theorem PFloat.fmin_num (a b : ℚ) : PFloat.fmin (.num a) (.num b) = .num (min a b) := by
  by_cases h : b < a
  · simp [PFloat.fmin, PFloat.lt_num, h, min_eq_right h.le]
  · simp [PFloat.fmin, PFloat.lt_num, h, min_eq_left (not_lt.1 h)]

theorem PFloat.fmax_num (a b : ℚ) : PFloat.fmax (.num a) (.num b) = .num (max a b) := by
  by_cases h : a < b
  · simp [PFloat.fmax, PFloat.lt_num, h, max_eq_right h.le]
  · simp [PFloat.fmax, PFloat.lt_num, h, max_eq_left (not_lt.1 h)]

theorem PFloat.foldl_add_map_num (qs : List ℚ) (a : ℚ) :
    (qs.map PFloat.num).foldl PFloat.add (.num a) = .num (a + qs.sum) := by
  induction qs generalizing a with
  | nil => simp
  | cons q qs ih => simp [PFloat.add_num, ih, add_assoc]

theorem PFloat.lsum_map_num (qs : List ℚ) :
    PFloat.lsum (qs.map PFloat.num) = .num qs.sum := by
  simp [PFloat.lsum, PFloat.foldl_add_map_num]

theorem PFloat.foldl_fmin_map_num (qs : List ℚ) (a : ℚ) :
    (qs.map PFloat.num).foldl PFloat.fmin (.num a) = .num (qs.foldl min a) := by
  induction qs generalizing a with
  | nil => simp
  | cons q qs ih => simp [PFloat.fmin_num, ih]

theorem PFloat.foldl_fmax_map_num (qs : List ℚ) (a : ℚ) :
    (qs.map PFloat.num).foldl PFloat.fmax (.num a) = .num (qs.foldl max a) := by
  induction qs generalizing a with
  | nil => simp
  | cons q qs ih => simp [PFloat.fmax_num, ih]

theorem insertFloat_map_num (a : ℚ) (l : List ℚ) :
    insertFloat (.num a) (l.map PFloat.num) =
      (List.orderedInsert (· ≤ ·) a l).map PFloat.num := by
  induction l with
  | nil => rfl
  | cons b l ih =>
    by_cases h : a ≤ b
    · simp [insertFloat, List.orderedInsert, PFloat.ble_num, h]
    · simp [insertFloat, List.orderedInsert, PFloat.ble_num, h, ih]

theorem sortFloats_map_num (l : List ℚ) :
    sortFloats (l.map PFloat.num) = (List.insertionSort (· ≤ ·) l).map PFloat.num := by
  induction l with
  | nil => rfl
  | cons a l ih => simp [sortFloats, List.insertionSort, ih, insertFloat_map_num]

/-- The ℚ-level fold computing the minimum is the least member. -/
theorem foldl_min_spec (l : List ℚ) (a : ℚ) :
    l.foldl min a ∈ a :: l ∧ ∀ x ∈ a :: l, l.foldl min a ≤ x := by
  induction l generalizing a with
  | nil => simp
  | cons b l ih =>
    obtain ⟨hmem, hle⟩ := ih (min a b)
    simp only [List.mem_cons] at hmem
    refine ⟨?_, ?_⟩
    · simp only [List.foldl_cons, List.mem_cons]
      rcases hmem with h | h
      · rcases le_total a b with hab | hab
        · rw [h, min_eq_left hab]; exact Or.inl rfl
        · rw [h, min_eq_right hab]; exact Or.inr (Or.inl rfl)
      · exact Or.inr (Or.inr h)
    · intro x hx
      simp only [List.mem_cons] at hx
      simp only [List.foldl_cons]
      have hhead := hle (min a b) (List.mem_cons_self _ _)
      rcases hx with rfl | rfl | hx
      · exact le_trans hhead (min_le_left _ _)
      · exact le_trans hhead (min_le_right _ _)
      · exact hle _ (List.mem_cons_of_mem _ hx)

/-- The ℚ-level fold computing the maximum is the greatest member. -/
theorem foldl_max_spec (l : List ℚ) (a : ℚ) :
    l.foldl max a ∈ a :: l ∧ ∀ x ∈ a :: l, x ≤ l.foldl max a := by
  induction l generalizing a with
  | nil => simp
  | cons b l ih =>
    obtain ⟨hmem, hle⟩ := ih (max a b)
    simp only [List.mem_cons] at hmem
    refine ⟨?_, ?_⟩
    · simp only [List.foldl_cons, List.mem_cons]
      rcases hmem with h | h
      · rcases le_total a b with hab | hab
        · rw [h, max_eq_right hab]; exact Or.inr (Or.inl rfl)
        · rw [h, max_eq_left hab]; exact Or.inl rfl
      · exact Or.inr (Or.inr h)
    · intro x hx
      simp only [List.mem_cons] at hx
      simp only [List.foldl_cons]
      have hhead := hle (max a b) (List.mem_cons_self _ _)
      rcases hx with rfl | rfl | hx
      · exact le_trans (le_max_left _ _) hhead
      · exact le_trans (le_max_right _ _) hhead
      · exact hle _ (List.mem_cons_of_mem _ hx)

/-! ## Helper lemmas: sortedness of `sortBy` -/

theorem mem_insertBy (le : α → α → Bool) (x a : α) (l : List α) :
    a ∈ insertBy le x l ↔ a = x ∨ a ∈ l := by
  induction l with
  | nil => simp [insertBy]
  | cons y ys ih =>
    by_cases h : le x y <;>
      simp [insertBy, h, List.mem_cons, ih] <;> tauto

theorem pairwise_insertBy (le : α → α → Bool)
    (htot : ∀ a b, le a b = true ∨ le b a = true)
    (htrans : ∀ a b c, le a b = true → le b c = true → le a c = true)
    (x : α) (l : List α) (hl : l.Pairwise (le · · = true)) :
    (insertBy le x l).Pairwise (le · · = true) := by
  induction l with
  | nil => exact List.pairwise_singleton _ x
  | cons y ys ih =>
    rcases List.pairwise_cons.1 hl with ⟨hy, hys⟩
    by_cases h : le x y
    · rw [insertBy, if_pos h]
      refine List.pairwise_cons.2 ⟨?_, hl⟩
      intro z hz
      simp only [List.mem_cons] at hz
      rcases hz with rfl | hz
      · exact h
      · exact htrans x y z h (hy z hz)
    · rw [insertBy, if_neg h]
      refine List.pairwise_cons.2 ⟨?_, ih hys⟩
      intro z hz
      rcases (mem_insertBy le x z ys).1 hz with rfl | hz
      · rcases htot z y with h' | h'
        · exact absurd h' h
        · exact h'
      · exact hy z hz

theorem pairwise_sortBy (le : α → α → Bool)
    (htot : ∀ a b, le a b = true ∨ le b a = true)
    (htrans : ∀ a b c, le a b = true → le b c = true → le a c = true)
    (l : List α) : (sortBy le l).Pairwise (le · · = true) := by
  induction l with
  | nil => simp [sortBy]
  | cons x xs ih => exact pairwise_insertBy le htot htrans x (sortBy le xs) ih

/-! ## Helper lemmas: `cellBle` is a total preorder -/

theorem PFloat.ble_total (x y : PFloat) : PFloat.ble x y = true ∨ PFloat.ble y x = true := by
  rcases x with _ | bx | a <;> rcases y with _ | b₂ | b
  case num.num => simpa [PFloat.ble] using le_total a b
  all_goals try cases bx
  all_goals try cases b₂
  all_goals simp [PFloat.ble]

theorem PFloat.ble_trans (x y z : PFloat) (h₁ : PFloat.ble x y = true)
    (h₂ : PFloat.ble y z = true) : PFloat.ble x z = true := by
  rcases x with _ | bx | a <;> rcases y with _ | b₂ | b <;> rcases z with _ | bz | c
  case num.num.num => simp_all [PFloat.ble]; exact le_trans h₁ h₂
  all_goals try cases bx
  all_goals try cases b₂
  all_goals try cases bz
  all_goals simp_all [PFloat.ble]

theorem cellBle_rank_le (a b : Cell) (h : cellBle a b = true) :
    cellBle.rank a ≤ cellBle.rank b := by
  cases a <;> cases b <;> simp_all [cellBle, cellBle.rank]

theorem cellBle_total (a b : Cell) : cellBle a b = true ∨ cellBle b a = true := by
  cases a <;> cases b <;> simp [cellBle, cellBle.rank]
  · exact le_total _ _
  · exact PFloat.ble_total _ _
  · exact le_total _ _

theorem cellBle_trans (a b c : Cell) (h₁ : cellBle a b = true) (h₂ : cellBle b c = true) :
    cellBle a c = true := by
  cases a <;> cases b <;> cases c <;> simp_all [cellBle, cellBle.rank]
  · exact le_trans h₁ h₂
  · exact PFloat.ble_trans _ _ _ h₁ h₂
  · exact le_trans h₁ h₂

/-! ## Claim theorems -/

/-- C1: `append` (= `handle_add_power`) strips the raw input and then:
blank text fails `EmptyInput`; text `float` cannot parse fails
`NotANumber`; a parsed value outside `[-150, 150]` (under float
comparison: below `POWER_MIN`, above `POWER_MAX`, or infinite) fails
`OutOfRange`; a parsed value within the inclusive bounds is appended as a
new row `(now, value)` at the end with a success status and the box is
cleared. On every failure branch the table is unchanged. -/
theorem append_validation_gate (now : String) (s : AppState) :
    ((pyStrip s.power_input).isEmpty = true →
      (handle_add_power now s).df = s.df ∧
      (handle_add_power now s).last_input_status = some .errEmpty) ∧
    ((pyStrip s.power_input).isEmpty = false →
      pythonFloat (pyStrip s.power_input) = none →
      (handle_add_power now s).df = s.df ∧
      (handle_add_power now s).last_input_status = some .errNotNumber) ∧
    (∀ q : ℚ, (pyStrip s.power_input).isEmpty = false →
      pythonFloat (pyStrip s.power_input) = some (.num q) →
      (q < POWER_MIN ∨ POWER_MAX < q) →
      (handle_add_power now s).df = s.df ∧
      (handle_add_power now s).last_input_status = some .errOutOfRange) ∧
    (∀ b : Bool, (pyStrip s.power_input).isEmpty = false →
      pythonFloat (pyStrip s.power_input) = some (.inf b) →
      (handle_add_power now s).df = s.df ∧
      (handle_add_power now s).last_input_status = some .errOutOfRange) ∧
    (∀ q : ℚ, (pyStrip s.power_input).isEmpty = false →
      pythonFloat (pyStrip s.power_input) = some (.num q) →
      POWER_MIN ≤ q → q ≤ POWER_MAX →
      (handle_add_power now s).df = s.df ++ [⟨.str now, .real (.num q)⟩] ∧
      (handle_add_power now s).last_input_status = some (.okAdded now (.num q)) ∧
      (handle_add_power now s).power_input = "") := by
  refine ⟨fun h₀ => ?_, fun h₀ h₁ => ?_, fun q h₀ h₁ h₂ => ?_, fun b h₀ h₁ => ?_,
    fun q h₀ h₁ h₂ h₃ => ?_⟩
  · simp [handle_add_power, h₀]
  · simp [handle_add_power, h₀, h₁]
  · rcases h₂ with h₂ | h₂ <;>
      simp [handle_add_power, h₀, h₁, PFloat.lt_num, h₂]
  · cases b <;> simp [handle_add_power, h₀, h₁, PFloat.lt]
  · simp [handle_add_power, h₀, h₁, PFloat.lt_num, not_lt.2 h₂, not_lt.2 h₃]

/-- Witness for C1: at the inclusive bounds `"-150"` and `"150"` the
append succeeds, `"200"` is rejected out-of-range, `"abc"` is not a
number, and `"   "` is empty — each obtained from
`append_validation_gate` at a concrete state. -/
theorem append_validation_gate_witness :
    (handle_add_power "T" ⟨[], "-150", none⟩).df = [⟨.str "T", .real (.num (-150))⟩] ∧
    (handle_add_power "T" ⟨[], "150", none⟩).df = [⟨.str "T", .real (.num 150)⟩] ∧
    (handle_add_power "T" ⟨[], "200", none⟩).df = [] ∧
    (handle_add_power "T" ⟨[], "200", none⟩).last_input_status = some .errOutOfRange ∧
    (handle_add_power "T" ⟨[], "abc", none⟩).df = [] ∧
    (handle_add_power "T" ⟨[], "abc", none⟩).last_input_status = some .errNotNumber ∧
    (handle_add_power "T" ⟨[], "   ", none⟩).df = [] ∧
    (handle_add_power "T" ⟨[], "   ", none⟩).last_input_status = some .errEmpty := by
  have hlo := (append_validation_gate "T" ⟨[], "-150", none⟩).2.2.2.2 (-150)
    (by decide) (by rfl) (by norm_num [POWER_MIN]) (by norm_num [POWER_MIN, POWER_MAX])
  have hhi := (append_validation_gate "T" ⟨[], "150", none⟩).2.2.2.2 150
    (by decide) (by rfl) (by norm_num [POWER_MIN, POWER_MAX]) (by norm_num [POWER_MAX])
  have hoor := (append_validation_gate "T" ⟨[], "200", none⟩).2.2.1 200
    (by decide) (by rfl) (Or.inr (by norm_num [POWER_MAX]))
  have hnn := (append_validation_gate "T" ⟨[], "abc", none⟩).2.1 (by decide) (by rfl)
  have hemp := (append_validation_gate "T" ⟨[], "   ", none⟩).1 (by decide)
  exact ⟨by simpa using hlo.1, by simpa using hhi.1, hoor.1, hoor.2,
    hnn.1, hnn.2, hemp.1, hemp.2⟩

/-- C9 (implicit): `float("nan")` parses to NaN, which compares false
against both range bounds, so `handle_add_power` on the input `"nan"`
takes the success branch: a row with a NaN value is appended and success
is reported. -/
theorem append_nan_accepted (now : String) (df : List Row) (st : Option InputStatus) :
    pythonFloat "nan" = some .nan ∧
    PFloat.lt .nan (.num POWER_MIN) = false ∧
    PFloat.lt (.num POWER_MAX) .nan = false ∧
    handle_add_power now ⟨df, "nan", st⟩ =
      ⟨df ++ [⟨.str now, .real .nan⟩], "", some (.okAdded now .nan)⟩ := by
  refine ⟨rfl, rfl, rfl, ?_⟩
  simp +decide [handle_add_power, pyStrip, pythonFloat, parseSign, matchesWord, lowerChar,
    isSpaceChar, PFloat.lt]

/-- C2: `SnapshotHistory.insert` (= `add_to_history`) is a no-op on an
empty table; on a non-empty table it prepends the snapshot and truncates
to the first 5 entries, so a history of length ≤ 5 stays of length ≤ 5;
six successive inserts of distinct non-empty tables leave exactly the 5
most recent snapshots, most recent first. -/
theorem snapshot_history_retention :
    (∀ now hist name, add_to_history now hist [] name = hist) ∧
    (∀ now hist df name, df ≠ [] →
      add_to_history now hist df name = ⟨name, df, now⟩ :: hist.take 4) ∧
    (∀ now hist df name, hist.length ≤ 5 →
      (add_to_history now hist df name).length ≤ 5) ∧
    (∀ i : ℚ,
      add_to_history "T6"
        (add_to_history "T5"
          (add_to_history "T4"
            (add_to_history "T3"
              (add_to_history "T2"
                (add_to_history "T1" [] [⟨.str "d", .real (.num (i+1))⟩] "n1")
                [⟨.str "d", .real (.num (i+2))⟩] "n2")
              [⟨.str "d", .real (.num (i+3))⟩] "n3")
            [⟨.str "d", .real (.num (i+4))⟩] "n4")
          [⟨.str "d", .real (.num (i+5))⟩] "n5")
        [⟨.str "d", .real (.num (i+6))⟩] "n6" =
      [⟨"n6", [⟨.str "d", .real (.num (i+6))⟩], "T6"⟩,
       ⟨"n5", [⟨.str "d", .real (.num (i+5))⟩], "T5"⟩,
       ⟨"n4", [⟨.str "d", .real (.num (i+4))⟩], "T4"⟩,
       ⟨"n3", [⟨.str "d", .real (.num (i+3))⟩], "T3"⟩,
       ⟨"n2", [⟨.str "d", .real (.num (i+2))⟩], "T2"⟩]) := by
  refine ⟨fun now hist name => rfl, fun now hist df name h => ?_, fun now hist df name h => ?_,
    fun i => rfl⟩
  · rw [add_to_history, if_neg (by simpa [List.isEmpty_iff] using h)]
    rfl
  · by_cases hdf : df.isEmpty
    · simpa [add_to_history, hdf] using h
    · simp [add_to_history, hdf, List.length_take]

/-- Witness for C2: the no-op, prepend and bound clauses of
`snapshot_history_retention` at a concrete history. -/
theorem snapshot_history_retention_witness :
    add_to_history "T" [⟨"n", [⟨.str "d", .real (.num 1)⟩], "t"⟩] [] "m" =
      [⟨"n", [⟨.str "d", .real (.num 1)⟩], "t"⟩] ∧
    add_to_history "T" [⟨"n", [⟨.str "d", .real (.num 1)⟩], "t"⟩]
        [⟨.str "e", .real (.num 2)⟩] "m" =
      [⟨"m", [⟨.str "e", .real (.num 2)⟩], "T"⟩, ⟨"n", [⟨.str "d", .real (.num 1)⟩], "t"⟩] ∧
    (add_to_history "T" [⟨"n", [⟨.str "d", .real (.num 1)⟩], "t"⟩]
        [⟨.str "e", .real (.num 2)⟩] "m").length ≤ 5 := by
  refine ⟨snapshot_history_retention.1 "T" _ "m", ?_, ?_⟩
  · rw [snapshot_history_retention.2.1 "T" _ _ "m" (by simp)]
    rfl
  · exact snapshot_history_retention.2.2.1 "T" _ _ "m" (by simp)

/-- C7: severity of the latest value: `Unknown` ("No data") with no value;
else by absolute magnitude — High (`"High power alert"`) when `|v| > 120`,
Medium (`"Medium usage"`) when `60 < |v| ≤ 120`, Normal otherwise; and
this is independent of the `[-150, 150]` input gate (130 is within the
gate yet High). -/
theorem severity_classification :
    power_status_label none = ("⚪", "No data") ∧
    (∀ q : ℚ,
      (120 < |q| → power_status_label (some (.num q)) = ("⚠️", "High power alert")) ∧
      (60 < |q| ∧ |q| ≤ 120 → power_status_label (some (.num q)) = ("🟡", "Medium usage")) ∧
      (|q| ≤ 60 → power_status_label (some (.num q)) = ("🟢", "Normal"))) ∧
    power_status_label (some (.num 130)) = ("⚠️", "High power alert") ∧
    power_status_label (some (.num 80)) = ("🟡", "Medium usage") ∧
    power_status_label (some (.num 30)) = ("🟢", "Normal") ∧
    (POWER_MIN ≤ 130 ∧ (130 : ℚ) ≤ POWER_MAX) := by
  have hgen : ∀ q : ℚ,
      (120 < |q| → power_status_label (some (.num q)) = ("⚠️", "High power alert")) ∧
      (60 < |q| ∧ |q| ≤ 120 → power_status_label (some (.num q)) = ("🟡", "Medium usage")) ∧
      (|q| ≤ 60 → power_status_label (some (.num q)) = ("🟢", "Normal")) := by
    intro q
    refine ⟨fun h => ?_, fun h => ?_, fun h => ?_⟩
    · simp [power_status_label, PFloat.fabs, PFloat.lt, h]
    · simp [power_status_label, PFloat.fabs, PFloat.lt, h.1, not_lt.2 h.2]
    · simp [power_status_label, PFloat.fabs, PFloat.lt, not_lt.2 h,
        not_lt.2 (h.trans (by norm_num : (60:ℚ) ≤ 120))]
  refine ⟨rfl, hgen, ?_, ?_, ?_, by norm_num [POWER_MIN], by norm_num [POWER_MAX]⟩
  · exact (hgen 130).1 (by norm_num)
  · exact (hgen 80).2.1 (by norm_num)
  · exact (hgen 30).2.2 (by norm_num)

/-- Witness for C7: the classification at the concrete values 130, 80, 30,
obtained by applying `severity_classification`. -/
theorem severity_classification_witness :
    power_status_label (some (.num 130)) = ("⚠️", "High power alert") ∧
    power_status_label (some (.num 80)) = ("🟡", "Medium usage") ∧
    power_status_label (some (.num 30)) = ("🟢", "Normal") ∧
    power_status_label none = ("⚪", "No data") :=
  ⟨severity_classification.2.2.1, severity_classification.2.2.2.1,
    severity_classification.2.2.2.2.1, severity_classification.1⟩

/-- C8 counterexample: the commit path does NOT store an unparsable value
in its raw edited form — committing a grid whose one row has `Power`
`"abc"` stores NaN, not the string `"abc"`. -/
theorem grid_commit_raw_counterexample :
    commit_data_editor [⟨.str "2024-01-01 00:00:00", .str "abc"⟩] =
      [⟨.str "2024-01-01 00:00:00", .real .nan⟩] ∧
    Cell.real .nan ≠ Cell.str "abc" := by
  exact ⟨rfl, by simp⟩

/-- C8 (amended): committing a bulk grid edit performs no validation gate:
every edited row is retained at its index (none dropped or rejected), its
timestamp unchanged; a missing or unparsable value is kept as NaN after
numeric coercion (a parsable one as its parsed number); out-of-range rows
only raise the advisory warning flag, which alters no row. -/
theorem grid_commit_no_gate (edited : List Row) :
    (commit_data_editor edited).length = edited.length ∧
    (∀ i, (commit_data_editor edited).get? i =
      (edited.get? i).map fun r => { r with power := .real (toNumericCell r.power) }) ∧
    (commit_data_editor edited).map (·.dateTime) = edited.map (·.dateTime) ∧
    (∀ r ∈ edited, { r with power := Cell.real (toNumericCell r.power) } ∈
      commit_data_editor edited) := by
  refine ⟨by simp [commit_data_editor], fun i => ?_, ?_, fun r hr => ?_⟩
  · simp [commit_data_editor, List.get?_map]
  · simp [commit_data_editor, List.map_map]
  · exact List.mem_map.2 ⟨r, hr, rfl⟩

/-- Witness for C8 (amended): `grid_commit_no_gate` at a concrete grid
holding an unparsable, an out-of-range and a missing value — all three
rows retained. -/
theorem grid_commit_no_gate_witness :
    (commit_data_editor [⟨.str "a", .str "abc"⟩, ⟨.str "b", .str "200"⟩,
        ⟨.str "c", .pyNone⟩]).length = 3 ∧
    (⟨.str "b", .real (.num 200)⟩ : Row) ∈
      commit_data_editor [⟨.str "a", .str "abc"⟩, ⟨.str "b", .str "200"⟩,
        ⟨.str "c", .pyNone⟩] := by
  have h := grid_commit_no_gate [⟨.str "a", .str "abc"⟩, ⟨.str "b", .str "200"⟩,
    ⟨.str "c", .pyNone⟩]
  refine ⟨h.1, ?_⟩
  have h₂ := h.2.2.2 ⟨.str "b", .str "200"⟩ (by simp)
  simpa +decide [toNumericCell, pyStrip, pythonFloat, parseSign, matchesWord, lowerChar,
    isSpaceChar, parseMantissa, parseDigitsCore, parseMantissa.parseExponent, isDigit,
    digitVal] using h₂

/-- C10 (implicit): after a grid-edit commit every `Power` cell is a float
(possibly NaN) — never a raw string. -/
theorem grid_commit_numeric_invariant (edited : List Row) (r : Row)
    (h : r ∈ commit_data_editor edited) :
    (∃ x : PFloat, r.power = .real x) ∧ ∀ s', r.power ≠ Cell.str s' := by
  rcases List.mem_map.1 h with ⟨r₀, _, rfl⟩
  exact ⟨⟨toNumericCell r₀.power, rfl⟩, fun s' => by simp⟩

/-- Witness for C10: `grid_commit_numeric_invariant` at a concrete
commit of a grid whose one row has the unparsable value `"abc"`. -/
theorem grid_commit_numeric_invariant_witness :
    (∃ x : PFloat, (Row.mk (.str "d") (.real .nan)).power = .real x) ∧
    ∀ s', (Row.mk (.str "d") (.real .nan)).power ≠ Cell.str s' :=
  grid_commit_numeric_invariant [⟨.str "d", .str "abc"⟩] ⟨.str "d", .real .nan⟩
    (by simp +decide [commit_data_editor, toNumericCell, pyStrip, pythonFloat, parseSign,
      matchesWord, lowerChar, isSpaceChar])

/-- Each user action leaves the snapshot history untouched. -/
theorem applyAction_history (a : UserAction) (s : SessionState) :
    (applyAction a s).history = s.history := by
  cases a with
  | addPower now text => rfl
  | commitEdit edited => rfl
  | clearData => rfl
  | restoreSnapshot i =>
    cases h : s.history[i]? <;> simp [applyAction, h]

/-- C6: snapshots are immutable after creation: every sequence of live
table mutations (append, grid-edit commit, clear, restore) leaves the
stored history — hence every stored snapshot's rows — exactly as it was;
and restoring a valid index copies that snapshot's rows into the live
table while any later mutation still leaves the stored snapshot intact. -/
theorem snapshot_immutability (s : SessionState) :
    (∀ acts : List UserAction, (applyActions acts s).history = s.history) ∧
    (∀ i item, s.history[i]? = some item →
      (applyAction (.restoreSnapshot i) s).df = item.df ∧
      ∀ acts : List UserAction,
        (applyActions acts (applyAction (.restoreSnapshot i) s)).history = s.history) := by
  have hline : ∀ (acts : List UserAction) (t : SessionState),
      (applyActions acts t).history = t.history := by
    intro acts
    induction acts with
    | nil => intro t; rfl
    | cons a acts ih =>
      intro t
      calc (applyActions (a :: acts) t).history
          = (applyAction a t).history := ih (applyAction a t)
        _ = t.history := applyAction_history a t
  refine ⟨fun acts => hline acts s, fun i item h => ⟨?_, fun acts => ?_⟩⟩
  · simp [applyAction, h]
  · rw [hline acts _, applyAction_history]

/-- Witness for C6: a concrete session with one stored snapshot — restore
copies its rows, and an append and a clear afterwards leave the history
identical (by `snapshot_immutability`). -/
theorem snapshot_immutability_witness :
    (applyAction (.restoreSnapshot 0)
        ⟨[], [⟨"n", [⟨.str "d", .real (.num 7)⟩], "t"⟩], "", none⟩).df =
      [⟨.str "d", .real (.num 7)⟩] ∧
    (applyActions [.addPower "T" "3", .clearData]
        (applyAction (.restoreSnapshot 0)
          ⟨[], [⟨"n", [⟨.str "d", .real (.num 7)⟩], "t"⟩], "", none⟩)).history =
      [⟨"n", [⟨.str "d", .real (.num 7)⟩], "t"⟩] := by
  have h := (snapshot_immutability
    ⟨[], [⟨"n", [⟨.str "d", .real (.num 7)⟩], "t"⟩], "", none⟩).2 0
    ⟨"n", [⟨.str "d", .real (.num 7)⟩], "t"⟩ rfl
  exact ⟨h.1, h.2 [.addPower "T" "3", .clearData]⟩

/-! ## Helper theorems for the smoothing claim -/

theorem filter_range_interval (lo hi n : ℕ) :
    (List.range n).filter (fun j => decide (lo ≤ j ∧ j ≤ hi)) =
      List.range' lo (min (hi + 1) n - lo) := by
  induction n with
  | zero => simp
  | succ n ih =>
    rw [List.range_succ, List.filter_append, ih]
    by_cases h1 : lo ≤ n ∧ n ≤ hi
    · have hmin1 : min (hi + 1) n - lo = n - lo := by omega
      have hmin2 : min (hi + 1) (n + 1) - lo = (n - lo) + 1 := by omega
      rw [hmin1, hmin2, List.range'_1_concat]
      have hn : lo + (n - lo) = n := by omega
      simp [h1, hn]
    · have hmin : min (hi + 1) (n + 1) - lo = min (hi + 1) n - lo := by omega
      simp [hmin, h1]

theorem drop_take_eq_map_range' (xs : List α) (d : α) (c : ℕ) :
    ∀ lo : ℕ, lo + c ≤ xs.length →
      (xs.drop lo).take c = (List.range' lo c).map (fun j => xs.getD j d) := by
  induction c with
  | zero => intro lo h; simp
  | succ c ih =>
    intro lo h
    have hlo : lo < xs.length := by omega
    rw [List.range'_succ, List.map_cons, List.drop_eq_getElem_cons hlo, List.take_succ_cons,
      ih (lo + 1) (by omega)]
    congr 1
    rw [List.getD_eq_getElem?_getD, List.getElem?_eq_getElem hlo]
    rfl

/-- For an odd window, the source's drop/take rolling window computes the
spec's centered-window mean at every position. -/
theorem rollingMeanCentered_eq_windowMean (w : ℕ) (hw : w % 2 = 1) (xs : List PFloat) :
    rollingMeanCentered w xs = (List.range xs.length).map (windowMean w xs) := by
  refine List.map_congr_left fun i hi => ?_
  rw [List.mem_range] at hi
  have hodd : (w - 1) / 2 = w / 2 := by omega
  have hc : min (i + w / 2 + 1) xs.length - (i - w / 2)
      = min (i + w / 2) (xs.length - 1) + 1 - (i - w / 2) := by omega
  have hidx : windowIdx w xs.length i
      = List.range' (i - w / 2) (min (i + w / 2) (xs.length - 1) + 1 - (i - w / 2)) := by
    rw [windowIdx, List.filter_congr (fun j hj => ?_), filter_range_interval, hc]
    simp only [decide_eq_decide]
    omega
  have hwin : (xs.drop (i - w / 2)).take (min (i + w / 2) (xs.length - 1) + 1 - (i - w / 2))
      = (List.range' (i - w / 2) (min (i + w / 2) (xs.length - 1) + 1 - (i - w / 2))).map
          (fun j => xs.getD j PFloat.nan) :=
    drop_take_eq_map_range' xs PFloat.nan _ _ (by omega)
  simp only [windowMean, hidx, hodd, hwin, List.length_map, List.length_range']

theorem length_rollingMeanCentered (w : ℕ) (xs : List PFloat) :
    (rollingMeanCentered w xs).length = xs.length := by
  simp [rollingMeanCentered]

theorem zip_plotPoint_columns (rows : List Row) (vals : List PFloat)
    (h : vals.length = rows.length) :
    (((rows.zip vals).map fun (rp : Row × PFloat) =>
        PlotPoint.mk rp.1.dateTime (powerVal rp.1) rp.2).map (·.power_plot) = vals) ∧
    (((rows.zip vals).map fun (rp : Row × PFloat) =>
        PlotPoint.mk rp.1.dateTime (powerVal rp.1) rp.2).map (·.power) = rows.map powerVal) := by
  induction rows generalizing vals with
  | nil => cases vals with
    | nil => simp
    | cons v vs => simp at h
  | cons r rs ih =>
    cases vals with
    | nil => simp at h
    | cons v vs =>
      have h' : vs.length = rs.length := by simpa using h
      obtain ⟨h1, h2⟩ := ih vs h'
      simp [List.zip_cons_cons, h1, h2]

theorem tab_visual_smoothing_on (df : List Row) (c : ChartControls)
    (hsm : c.smoothing_enabled = true) :
    (tab_visual_pipeline df c).map (·.power_plot) =
      rollingMeanCentered c.smoothing_window ((tab_visual_pipeline df c).map (·.power)) := by
  rw [tab_visual_pipeline]
  simp only [hsm, if_true]
  set p := (if c.sort_time then
      sortBy (fun a b => cellBle a.dateTime b.dateTime)
        (((prepare_plot_df df).map fun r => { r with power := .real (toNumericCell r.power) }).filter
          fun r => !r.dateTime.isna && !r.power.isna)
    else
      ((prepare_plot_df df).map fun r => { r with power := .real (toNumericCell r.power) }).filter
        fun r => !r.dateTime.isna && !r.power.isna).filter
    (fun r => PFloat.le (.num c.range_lo) (powerVal r) && PFloat.le (powerVal r) (.num c.range_hi))
    with hp
  obtain ⟨h1, h2⟩ := zip_plotPoint_columns p
    (rollingMeanCentered c.smoothing_window (p.map powerVal))
    (by rw [length_rollingMeanCentered, List.length_map])
  rw [h1, h2]

theorem tab_visual_smoothing_off (df : List Row) (c : ChartControls)
    (hsm : c.smoothing_enabled = false) :
    (tab_visual_pipeline df c).map (·.power_plot) = (tab_visual_pipeline df c).map (·.power) := by
  rw [tab_visual_pipeline]
  simp only [hsm, if_false]
  set p := (if c.sort_time then
      sortBy (fun a b => cellBle a.dateTime b.dateTime)
        (((prepare_plot_df df).map fun r => { r with power := .real (toNumericCell r.power) }).filter
          fun r => !r.dateTime.isna && !r.power.isna)
    else
      ((prepare_plot_df df).map fun r => { r with power := .real (toNumericCell r.power) }).filter
        fun r => !r.dateTime.isna && !r.power.isna).filter
    (fun r => PFloat.le (.num c.range_lo) (powerVal r) && PFloat.le (powerVal r) (.num c.range_hi))
    with hp
  obtain ⟨h1, h2⟩ := zip_plotPoint_columns p (p.map powerVal) (by rw [List.length_map])
  exact h1.trans h2.symm

/-- C5: with smoothing enabled (window 3, 5 or 7) the plotted value at
each position is the centered moving average of the plotted value
sequence with `min_periods = 1` — at the edges the average runs over the
samples that fall inside the clipped centered window; with smoothing
disabled the plotted value is the raw value; window 3 over `[1,2,3,4,5]`
yields `[1.5, 2, 3, 4, 4.5]`. -/
theorem smoothing_centered_moving_average :
    (∀ w : ℕ, (w = 3 ∨ w = 5 ∨ w = 7) → ∀ xs : List PFloat,
      rollingMeanCentered w xs = (List.range xs.length).map (windowMean w xs)) ∧
    (∀ (df : List Row) (c : ChartControls), c.smoothing_enabled = true →
      (tab_visual_pipeline df c).map (·.power_plot) =
        rollingMeanCentered c.smoothing_window ((tab_visual_pipeline df c).map (·.power))) ∧
    (∀ (df : List Row) (c : ChartControls), c.smoothing_enabled = false →
      (tab_visual_pipeline df c).map (·.power_plot) =
        (tab_visual_pipeline df c).map (·.power)) ∧
    rollingMeanCentered 3 ([1, 2, 3, 4, 5].map PFloat.num) =
      [(3:ℚ)/2, 2, 3, 4, 9/2].map PFloat.num := by
  refine ⟨fun w hw xs => rollingMeanCentered_eq_windowMean w ?_ xs,
    tab_visual_smoothing_on, tab_visual_smoothing_off, ?_⟩
  · rcases hw with rfl | rfl | rfl <;> rfl
  · norm_num [rollingMeanCentered, PFloat.lsum, List.range_succ, PFloat.add_num,
      PFloat.divNat_num]

/-- Witness for C5: `smoothing_centered_moving_average` applied at window
3 on a concrete sequence, and at a concrete table with smoothing
enabled and disabled. -/
theorem smoothing_centered_moving_average_witness :
    rollingMeanCentered 3 ([10, 20].map PFloat.num) =
      (List.range 2).map (windowMean 3 ([10, 20].map PFloat.num)) ∧
    (tab_visual_pipeline [⟨.str "2024-01-01 00:00:00", .real (.num 1)⟩]
        ⟨false, true, 3, -150, 150⟩).map (·.power_plot) =
      rollingMeanCentered 3
        ((tab_visual_pipeline [⟨.str "2024-01-01 00:00:00", .real (.num 1)⟩]
          ⟨false, true, 3, -150, 150⟩).map (·.power)) ∧
    (tab_visual_pipeline [⟨.str "2024-01-01 00:00:00", .real (.num 1)⟩]
        ⟨false, false, 3, -150, 150⟩).map (·.power_plot) =
      (tab_visual_pipeline [⟨.str "2024-01-01 00:00:00", .real (.num 1)⟩]
        ⟨false, false, 3, -150, 150⟩).map (·.power) :=
  ⟨smoothing_centered_moving_average.1 3 (Or.inl rfl) _,
    smoothing_centered_moving_average.2.1 _ _ rfl,
    smoothing_centered_moving_average.2.2.1 _ _ rfl⟩

/-! ## Helper theorems for the statistics claim -/

theorem getD_map_num (l : List ℚ) (i : ℕ) (d : PFloat) (h : i < l.length) :
    (l.map PFloat.num).getD i d = .num (l.getD i 0) := by
  rw [List.getD_eq_getElem?_getD, List.getD_eq_getElem?_getD, List.getElem?_map,
    List.getElem?_eq_getElem h]
  rfl

theorem getD_map_num_succ (l : List ℚ) (i : ℕ) :
    (l.map PFloat.num).getD (i + 1) (.num (l.getD i 0)) =
      .num (l.getD (i + 1) (l.getD i 0)) := by
  by_cases h : i + 1 < l.length
  · simp [List.getD_eq_getElem?_getD, List.getElem?_map, List.getElem?_eq_getElem h]
  · have h' : l.length ≤ i + 1 := by omega
    simp [List.getD_eq_getElem?_getD, List.getElem?_map, List.getElem?_eq_none h']

theorem quantileLinear_map_num (qs : List ℚ) (hne : qs ≠ []) (p : ℚ)
    (hp0 : 0 ≤ p) (hp1 : p ≤ 1) :
    quantileLinear (qs.map PFloat.num) p =
      .num (ratQuantile (List.insertionSort (· ≤ ·) qs) p) := by
  have hlen : (List.insertionSort (· ≤ ·) qs).length = qs.length :=
    List.length_insertionSort _ _
  set l := List.insertionSort (· ≤ ·) qs with hl
  have hn : 0 < l.length := by
    rw [hlen]
    exact List.length_pos.2 hne
  have hone : (1:ℚ) ≤ (l.length : ℚ) := by exact_mod_cast hn
  have hhle : p * ((l.length : ℚ) - 1) ≤ (l.length : ℚ) - 1 :=
    mul_le_of_le_one_left (by linarith) hp1
  have hi : ⌊p * ((l.length : ℚ) - 1)⌋₊ < l.length := by
    have h1 : ((l.length - 1 : ℕ) : ℚ) = (l.length : ℚ) - 1 := by
      rw [Nat.cast_sub hn, Nat.cast_one]
    have h2 : ⌊p * ((l.length : ℚ) - 1)⌋₊ ≤ l.length - 1 := by
      rw [← Nat.floor_natCast (α := ℚ) (l.length - 1)]
      exact Nat.floor_le_floor (by rw [h1]; exact hhle)
    omega
  rw [quantileLinear, ratQuantile, sortFloats_map_num, ← hl]
  simp only [List.length_map]
  rw [getD_map_num l _ _ hi, getD_map_num_succ]
  rw [PFloat.sub_num, PFloat.scale_num, PFloat.add_num]

theorem ratQuantile_median_odd (l : List ℚ) (hodd : l.length % 2 = 1) :
    ratQuantile l (1/2) = l.getD (l.length / 2) 0 := by
  obtain ⟨k, hk⟩ : ∃ k, l.length = 2 * k + 1 := ⟨l.length / 2, by omega⟩
  have hh : (1:ℚ)/2 * ((l.length : ℚ) - 1) = (k : ℚ) := by
    rw [hk]; push_cast; ring
  have hfl : ⌊(1:ℚ)/2 * ((l.length : ℚ) - 1)⌋₊ = k := by
    rw [hh]; exact Nat.floor_natCast k
  have hk2 : l.length / 2 = k := by omega
  rw [ratQuantile]
  simp only [hfl]
  simp only [hh, sub_self, zero_mul, add_zero, hk2]

theorem ratQuantile_median_even (l : List ℚ) (hne : l ≠ []) (heven : l.length % 2 = 0) :
    ratQuantile l (1/2) = (l.getD (l.length / 2 - 1) 0 + l.getD (l.length / 2) 0) / 2 := by
  obtain ⟨m, hm1, hk⟩ : ∃ m, 1 ≤ m ∧ l.length = 2 * m := by
    refine ⟨l.length / 2, ?_, by omega⟩
    have := List.length_pos.2 hne
    omega
  have hh : (1:ℚ)/2 * ((l.length : ℚ) - 1) = (m : ℚ) - 1/2 := by
    rw [hk]; push_cast; ring
  have hmq : (1:ℚ) ≤ (m : ℚ) := by exact_mod_cast hm1
  have hfl : ⌊(1:ℚ)/2 * ((l.length : ℚ) - 1)⌋₊ = m - 1 := by
    rw [hh, Nat.floor_eq_iff (by linarith)]
    rw [Nat.cast_sub hm1, Nat.cast_one]
    constructor <;> linarith
  have hcast : ((m - 1 : ℕ) : ℚ) = (m : ℚ) - 1 := by
    rw [Nat.cast_sub hm1, Nat.cast_one]
  have hsucc : m - 1 + 1 = m := by omega
  have hlt : m < l.length := by omega
  have hgetD : l.getD m (l.getD (m - 1) 0) = l.getD m 0 := by
    simp [List.getD_eq_getElem?_getD, List.getElem?_eq_getElem hlt]
  have hk2 : l.length / 2 = m := by omega
  rw [ratQuantile]
  simp only [hfl]
  simp only [hh, hsucc, hgetD, hk2]
  rw [hcast]
  ring

theorem sqdev_map_num (qs : List ℚ) (μ : ℚ) :
    (qs.map PFloat.num).map
        (fun x => (x.sub (.num μ)).mul (x.sub (.num μ))) =
      (qs.map fun q => (q - μ)^2).map PFloat.num := by
  rw [List.map_map, List.map_map]
  refine List.map_congr_left fun q hq => ?_
  simp [Function.comp, PFloat.sub_num, PFloat.mul_num, sq]

theorem compute_power_stats_eq (df : List Row) (qs : List ℚ)
    (hq : numericSeries df = qs.map PFloat.num) (hne : qs ≠ []) :
    compute_power_stats df = some {
      count := qs.length
      mean := .num (qs.sum / (qs.length : ℚ))
      median := .num (ratQuantile (List.insertionSort (· ≤ ·) qs) (1/2))
      var := if 1 < qs.length
        then .num ((qs.map fun x => (x - qs.sum / (qs.length : ℚ))^2).sum
          / ((qs.length - 1 : ℕ) : ℚ))
        else .num 0
      min := .num (qs.tail.foldl min (qs.headD 0))
      max := .num (qs.tail.foldl max (qs.headD 0))
      sum := .num qs.sum
      q25 := .num (ratQuantile (List.insertionSort (· ≤ ·) qs) (1/4))
      q75 := .num (ratQuantile (List.insertionSort (· ≤ ·) qs) (3/4)) } := by
  have hs : seriesDropna (df.map (·.power)) = qs.map PFloat.num := hq
  have hemp : (qs.map PFloat.num).isEmpty = false := by
    cases qs with
    | nil => exact absurd rfl hne
    | cons q qs => rfl
  rw [compute_power_stats, hs]
  rw [hemp]
  simp only [Bool.false_eq_true, if_false, List.length_map, Option.some_inj]
  have hmean : PFloat.divNat (PFloat.lsum (qs.map PFloat.num)) qs.length =
      .num (qs.sum / (qs.length : ℚ)) := by
    rw [PFloat.lsum_map_num, PFloat.divNat_num]
  have hminmax : listMinF (qs.map PFloat.num) = .num (qs.tail.foldl min (qs.headD 0)) ∧
      listMaxF (qs.map PFloat.num) = .num (qs.tail.foldl max (qs.headD 0)) := by
    cases qs with
    | nil => exact absurd rfl hne
    | cons q rest =>
      constructor
      · rw [List.map_cons, listMinF, PFloat.foldl_fmin_map_num]
        rfl
      · rw [List.map_cons, listMaxF, PFloat.foldl_fmax_map_num]
        rfl
  simp only [PowerStats.mk.injEq]
  refine ⟨trivial, hmean, quantileLinear_map_num qs hne (1/2) (by norm_num) (by norm_num), ?_,
    hminmax.1, hminmax.2, PFloat.lsum_map_num qs,
    quantileLinear_map_num qs hne (1/4) (by norm_num) (by norm_num),
    quantileLinear_map_num qs hne (3/4) (by norm_num) (by norm_num)⟩
  by_cases hn1 : 1 < qs.length
  · rw [if_pos hn1, if_pos hn1, hmean, sqdev_map_num, PFloat.lsum_map_num, PFloat.divNat_num]
  · rw [if_neg hn1, if_neg hn1]

theorem nfloor_eval (a : ℚ) (n : ℕ) (h1 : (n : ℚ) ≤ a) (h2 : a < n + 1) : ⌊a⌋₊ = n :=
  (Nat.floor_eq_iff (le_trans (Nat.cast_nonneg n) h1)).2 ⟨h1, h2⟩

theorem ratQuantile_eval (l : List ℚ) (p : ℚ) (i : ℕ)
    (hfl : ⌊p * ((l.length : ℚ) - 1)⌋₊ = i) :
    ratQuantile l p = l.getD i 0 +
      (p * ((l.length : ℚ) - 1) - (i : ℚ)) * (l.getD (i + 1) (l.getD i 0) - l.getD i 0) := by
  rw [ratQuantile]
  simp only [hfl]

/-- C3: `compute_power_stats` returns Empty (`None`) exactly when no
numeric rows remain after coercion; otherwise its dict holds the count,
the arithmetic mean `sum/count`, the least and greatest numeric values,
the median and the 25th/75th percentiles by linear interpolation between
order statistics of the sorted data (median interpolating the two middle
values for even counts), the sum, and the Bessel-corrected (`ddof = 1`)
sample variance — the square of the reported std — which is 0 when
count = 1; on `[10,20,30,40]`: mean 25, median 25, q25 17.5, q75 32.5. -/
theorem stats_engine_summary :
    (∀ df : List Row, compute_power_stats df = none ↔ numericSeries df = []) ∧
    (∀ (df : List Row) (qs : List ℚ), numericSeries df = qs.map PFloat.num → qs ≠ [] →
      ∃ st, compute_power_stats df = some st ∧
        st.count = qs.length ∧
        st.sum = .num qs.sum ∧
        st.mean = .num (qs.sum / (qs.length : ℚ)) ∧
        (∃ m, st.min = .num m ∧ m ∈ qs ∧ ∀ x ∈ qs, m ≤ x) ∧
        (∃ m, st.max = .num m ∧ m ∈ qs ∧ ∀ x ∈ qs, x ≤ m) ∧
        st.median = .num (ratQuantile (List.insertionSort (· ≤ ·) qs) (1/2)) ∧
        st.q25 = .num (ratQuantile (List.insertionSort (· ≤ ·) qs) (1/4)) ∧
        st.q75 = .num (ratQuantile (List.insertionSort (· ≤ ·) qs) (3/4)) ∧
        (qs.length = 1 → st.var = .num 0) ∧
        (1 < qs.length →
          st.var = .num ((qs.map fun x => (x - qs.sum / (qs.length : ℚ))^2).sum
            / ((qs.length - 1 : ℕ) : ℚ)))) ∧
    (∀ l : List ℚ, l.length % 2 = 1 → ratQuantile l (1/2) = l.getD (l.length / 2) 0) ∧
    (∀ l : List ℚ, l ≠ [] → l.length % 2 = 0 →
      ratQuantile l (1/2) = (l.getD (l.length / 2 - 1) 0 + l.getD (l.length / 2) 0) / 2) ∧
    compute_power_stats
        [⟨.str "d", .real (.num 10)⟩, ⟨.str "d", .real (.num 20)⟩,
         ⟨.str "d", .real (.num 30)⟩, ⟨.str "d", .real (.num 40)⟩] =
      some ⟨4, .num 25, .num 25, .num (500/3), .num 10, .num 40, .num 100,
        .num (35/2), .num (65/2)⟩ := by
  refine ⟨?_, ?_, ratQuantile_median_odd, ratQuantile_median_even, ?_⟩
  · intro df
    rw [compute_power_stats]
    by_cases h : (seriesDropna (df.map (·.power))).isEmpty
    · simp only [h, if_true]
      simp [numericSeries, List.isEmpty_iff.1 h]
    · simp only [h, Bool.false_eq_true, if_false]
      simp [numericSeries, List.isEmpty_iff, h]
      intro hcon
      exact absurd (by simp [hcon]) h
  · intro df qs hq hne
    refine ⟨_, compute_power_stats_eq df qs hq hne, rfl, rfl, rfl, ?_, ?_, rfl, rfl, rfl,
      fun h1 => by simp [h1], fun h1 => by simp [h1]⟩
    · cases qs with
      | nil => exact absurd rfl hne
      | cons q rest =>
        obtain ⟨hmem, hle⟩ := foldl_min_spec rest q
        exact ⟨rest.foldl min q, rfl, hmem, hle⟩
    · cases qs with
      | nil => exact absurd rfl hne
      | cons q rest =>
        obtain ⟨hmem, hle⟩ := foldl_max_spec rest q
        exact ⟨rest.foldl max q, rfl, hmem, hle⟩
  · have hq : numericSeries
        [⟨.str "d", .real (.num 10)⟩, ⟨.str "d", .real (.num 20)⟩,
         ⟨.str "d", .real (.num 30)⟩, ⟨.str "d", .real (.num 40)⟩] =
        ([10, 20, 30, 40] : List ℚ).map PFloat.num := rfl
    rw [compute_power_stats_eq _ [10, 20, 30, 40] hq (by simp)]
    have hsort : List.insertionSort (· ≤ ·) ([10, 20, 30, 40] : List ℚ) = [10, 20, 30, 40] := by
      norm_num [List.insertionSort, List.orderedInsert]
    have hmed : ratQuantile ([10, 20, 30, 40] : List ℚ) (1/2) = 25 := by
      rw [ratQuantile_eval _ _ 1 (nfloor_eval _ 1 (by norm_num) (by norm_num))]
      norm_num
    have hq25 : ratQuantile ([10, 20, 30, 40] : List ℚ) (1/4) = 35/2 := by
      rw [ratQuantile_eval _ _ 0 (nfloor_eval _ 0 (by norm_num) (by norm_num))]
      norm_num
    have hq75 : ratQuantile ([10, 20, 30, 40] : List ℚ) (3/4) = 65/2 := by
      rw [ratQuantile_eval _ _ 2 (nfloor_eval _ 2 (by norm_num) (by norm_num))]
      norm_num
    simp only [hsort, hmed, hq25, hq75, Option.some_inj, PowerStats.mk.injEq]
    norm_num

/-- Witness for C3: `stats_engine_summary` applied at a one-row table and
at concrete odd- and even-length data. -/
theorem stats_engine_summary_witness :
    (∃ st, compute_power_stats [⟨.str "d", .real (.num 10)⟩] = some st ∧ st.count = 1) ∧
    ratQuantile [1, 2, 3] (1/2) = 2 ∧
    ratQuantile [1, 2, 3, 4] (1/2) = 5/2 := by
  refine ⟨?_, ?_, ?_⟩
  · obtain ⟨st, h1, h2, _⟩ := stats_engine_summary.2.1 [⟨.str "d", .real (.num 10)⟩] [10]
      rfl (by simp)
    exact ⟨st, h1, h2⟩
  · exact (stats_engine_summary.2.2.1 [1, 2, 3] rfl).trans (by norm_num)
  · exact (stats_engine_summary.2.2.2.1 [1, 2, 3, 4] (by simp) rfl).trans (by norm_num)

/-! ## Helper theorems for the plot-preparation claim -/

theorem countP_bnot (p : α → Bool) (l : List α) :
    l.countP (fun a => !p a) = l.length - l.countP p := by
  induction l with
  | nil => rfl
  | cons a l ih =>
    have hle := List.countP_le_length (p := p) (l := l)
    by_cases h : p a <;> simp [List.countP_cons, h, ih] <;> omega

theorem isna_real (x : PFloat) : (Cell.real x).isna = decide (x = PFloat.nan) := by
  cases x <;> rfl

theorem toDatetimeList_length (cs cs' : List Cell)
    (h : toDatetimeList cs = some cs') : cs'.length = cs.length := by
  induction cs generalizing cs' with
  | nil =>
    rw [toDatetimeList] at h
    simp only [Option.some_inj] at h
    simp [← h]
  | cons c cst ih =>
    rw [toDatetimeList] at h
    cases h1 : toDatetimeCell c with
    | none => rw [h1] at h; exact absurd h (by simp)
    | some c' =>
      cases h2 : toDatetimeList cst with
      | none => rw [h1, h2] at h; exact absurd h (by simp)
      | some cst' =>
        rw [h1, h2, Option.some_inj] at h
        subst h
        simp [ih cst' h2]

theorem zip_set_dateTime_power (df : List Row) (conv : List Cell)
    (h : conv.length = df.length) :
    ((df.zip conv).map fun (rc : Row × Cell) => { rc.1 with dateTime := rc.2 }).map (·.power)
      = df.map (·.power) := by
  induction df generalizing conv with
  | nil => simp
  | cons r rs ih =>
    cases conv with
    | nil => simp at h
    | cons c cs =>
      have h' : cs.length = rs.length := by simpa using h
      simp [List.zip_cons_cons, ih cs h']

theorem prepare_plot_df_length (df : List Row) :
    (prepare_plot_df df).length = df.length - (df.filter valueCoercionFails).length := by
  have key : ∀ df₁ : List Row, df₁.map (·.power) = df.map (·.power) →
      ((df₁.map fun r => { r with power := Cell.real (toNumericCell r.power) }).filter
        (fun r => !r.power.isna)).length
        = df.length - (df.filter valueCoercionFails).length := by
    intro df₁ hpow
    rw [← List.countP_eq_length_filter, List.countP_map]
    rw [show ((fun r : Row => !r.power.isna) ∘
          fun r : Row => ({ r with power := Cell.real (toNumericCell r.power) } : Row))
        = fun r : Row => !(Cell.real (toNumericCell r.power)).isna from rfl]
    have hstep : (df₁.map (·.power)).countP
        (fun c => !(Cell.real (toNumericCell c)).isna)
        = df₁.countP fun r => !(Cell.real (toNumericCell r.power)).isna := by
      rw [List.countP_map]
      rfl
    rw [show (df₁.countP fun r => !(Cell.real (toNumericCell r.power)).isna)
        = (df₁.map (·.power)).countP (fun c => !(Cell.real (toNumericCell c)).isna)
      from hstep.symm]
    rw [hpow, List.countP_map]
    have hpred : (fun r : Row => !(Cell.real (toNumericCell r.power)).isna)
        = fun r : Row => !valueCoercionFails r := by
      funext r
      rw [isna_real, valueCoercionFails]
    rw [show ((fun c : Cell => !(Cell.real (toNumericCell c)).isna) ∘ fun r : Row => r.power)
        = fun r : Row => !(Cell.real (toNumericCell r.power)).isna from rfl]
    rw [hpred, countP_bnot, List.countP_eq_length_filter]
  rw [prepare_plot_df]
  cases hconv : toDatetimeList (df.map (·.dateTime)) with
  | none => exact key df rfl
  | some conv =>
    refine key _ (zip_set_dateTime_power df conv ?_)
    rw [toDatetimeList_length _ _ hconv, List.length_map]

theorem tab_visual_sorted (df : List Row) (c : ChartControls) (hs : c.sort_time = true) :
    (tab_visual_pipeline df c).Pairwise
      (fun a b => cellBle a.dateTime b.dateTime = true) := by
  rw [tab_visual_pipeline]
  simp only [hs, if_true]
  set p₂ := ((prepare_plot_df df).map fun r =>
      { r with power := .real (toNumericCell r.power) }).filter
      (fun r => !r.dateTime.isna && !r.power.isna) with hp₂
  set p₄ := (sortBy (fun a b => cellBle a.dateTime b.dateTime) p₂).filter
      (fun r => PFloat.le (.num c.range_lo) (powerVal r) &&
        PFloat.le (powerVal r) (.num c.range_hi)) with hp₄
  set xs := p₄.map powerVal with hxs
  set vals := (if c.smoothing_enabled then rollingMeanCentered c.smoothing_window xs else xs)
    with hvals
  have h₃ : (sortBy (fun a b => cellBle a.dateTime b.dateTime) p₂).Pairwise
      (fun a b => cellBle a.dateTime b.dateTime = true) :=
    pairwise_sortBy _ (fun a b => cellBle_total a.dateTime b.dateTime)
      (fun a b c' hab hbc => cellBle_trans a.dateTime b.dateTime c'.dateTime hab hbc) p₂
  have h₄ : p₄.Pairwise (fun a b => cellBle a.dateTime b.dateTime = true) := h₃.filter _
  have hlen : p₄.length ≤ vals.length := by
    rw [hvals]
    by_cases hsm : c.smoothing_enabled <;>
      simp [hsm, length_rollingMeanCentered, hxs]
  have hfst : (p₄.zip vals).map (·.1) = p₄ := List.map_fst_zip _ _ hlen
  rw [List.pairwise_map]
  have h₄' : ((p₄.zip vals).map (·.1)).Pairwise
      (fun a b => cellBle a.dateTime b.dateTime = true) := by
    rw [hfst]; exact h₄
  exact List.pairwise_map.1 h₄'

/-- C4 counterexample: the claim "drops exactly the rows where either
coercion fails" is false — a one-row table whose timestamp `"garbage"`
fails datetime conversion (and whose value is numeric) is fully retained
by `prepare_plot_df` (count 1), while the claim predicts count
1 - 1 = 0. -/
theorem plot_prepare_drop_counterexample :
    toDatetimeCell (Cell.str "garbage") = none ∧
    eitherCoercionFails ⟨.str "garbage", .real (.num 5)⟩ = true ∧
    (prepare_plot_df [⟨.str "garbage", .real (.num 5)⟩]).length = 1 ∧
    ([⟨.str "garbage", .real (.num 5)⟩] : List Row).length -
      (([⟨.str "garbage", .real (.num 5)⟩] : List Row).filter eitherCoercionFails).length = 0 :=
  ⟨rfl, rfl, rfl, rfl⟩

/-- C4 (amended): `prepare_plot_df` drops exactly the rows whose value
fails numeric coercion — `(prepared).length = rows - value-unparsable
rows`; timestamp conversion is column-wide and all-or-nothing and never
drops a row by itself. With sort-by-time enabled the pipeline output is
sorted ascending under the `Date Time` ordering, which on converted
timestamps is exactly the timestamp order. -/
theorem plot_prepare_amended :
    (∀ df : List Row, (prepare_plot_df df).length =
      df.length - (df.filter valueCoercionFails).length) ∧
    (∀ (df : List Row) (c : ChartControls), c.sort_time = true →
      (tab_visual_pipeline df c).Pairwise (fun a b => cellBle a.dateTime b.dateTime = true)) ∧
    (∀ k l : ℚ, cellBle (.dt k) (.dt l) = decide (k ≤ l)) :=
  ⟨prepare_plot_df_length, tab_visual_sorted, fun k l => rfl⟩

/-- Witness for C4 (amended): `plot_prepare_amended` applied at a table
with one value-unparsable row (one row survives) and at a concrete
out-of-order two-row table with sorting enabled. -/
theorem plot_prepare_amended_witness :
    (prepare_plot_df [⟨.str "garbage", .real (.num 5)⟩, ⟨.str "x", .str "abc"⟩]).length = 1 ∧
    (tab_visual_pipeline [⟨.str "2024-01-02 10:00:00", .real (.num 5)⟩,
        ⟨.str "2024-01-01 09:00:00", .real (.num 3)⟩]
      ⟨true, false, 5, -150, 150⟩).Pairwise
      (fun a b => cellBle a.dateTime b.dateTime = true) := by
  constructor
  · have h := plot_prepare_amended.1 [⟨.str "garbage", .real (.num 5)⟩, ⟨.str "x", .str "abc"⟩]
    simpa +decide [valueCoercionFails, toNumericCell, pyStrip, pythonFloat, parseSign,
      matchesWord, lowerChar, isSpaceChar] using h
  · exact plot_prepare_amended.2.1 _ _ rfl
